import Mathlib

/-!
Verification of the natural-language specification of
`insta_posts_downloader.py` against a shallow embedding of the script.

The script has three parts, each embedded below from the source:
  * `sanitize_filename` — pure string sanitisation (regex substitution of
    the characters `<>:"/\|?*` and newline, carriage-return, tab by an
    underscore, then Python `str.strip()`), embedded over `List Char`;
  * `download_posts_with_delays` — the paced retry/backoff download loop,
    embedded as a deterministic function of an oracle environment `DlEnv`
    that fixes the outcome of every download attempt, the stream of
    `random.uniform` draws (as rationals in `[0,1)`), and whether each
    `time.sleep` call completes or is hit by a `KeyboardInterrupt`;
  * `login_with_session` and `main` — control flow embedded over oracle
    environments for the external `instaloader` calls; results carry the
    process exit code and a trace of the messages printed on the path
    taken to the point where control ends, plus a marker for the start
    of the download phase.
-/

namespace InstaPosts

/-! ## sanitize_filename (source lines 26-28) -/

/-- The character class of the regex `[<>:"/\\|?*\n\r\t]` in
`sanitize_filename`. -/
def badChars : List Char :=
  ['<', '>', ':', '"', '/', '\\', '|', '?', '*', '\n', '\r', '\t']

/-- One step of `re.sub(r'[<>:"/\\|?*\n\r\t]', '_', name)`: a character in
the class becomes an underscore, any other character is kept. -/
def substChar (c : Char) : Char :=
  if badChars.contains c then '_' else c

/-- Characters removed by Python `str.strip()`; we model the ASCII part of
the Python whitespace set (Python additionally strips some rare Unicode
space characters, which no claim mentions). -/
def isStripChar (c : Char) : Bool :=
  c = ' ' || c = '\t' || c = '\n' || c = '\r' || c = '\x0b' || c = '\x0c'

/-- Leading-whitespace removal half of `str.strip()`. -/
def lstrip (l : List Char) : List Char :=
  l.dropWhile isStripChar

/-- Trailing-whitespace removal half of `str.strip()`. -/
def rstrip (l : List Char) : List Char :=
  (l.reverse.dropWhile isStripChar).reverse

/-- Python `str.strip()`. -/
def stripChars (l : List Char) : List Char :=
  rstrip (lstrip l)

/-- `sanitize_filename`: substitute the unsafe characters, then strip. -/
def sanitize_filename (s : List Char) : List Char :=
  stripChars (s.map substChar)

/-- `str.strip()` on a `String`, used by `main` on its interactive inputs. -/
def pyStrip (s : String) : String :=
  String.mk (stripChars s.toList)

/-- `str.lower()` on a `String` (ASCII lowering, as used on a yes/no answer). -/
def pyLower (s : String) : String :=
  String.mk (s.toList.map Char.toLower)

/-- A list has no stripped character at its head. -/
def noLead (l : List Char) : Prop :=
  ∀ c, l.head? = some c → isStripChar c = false

/-! ## download_posts_with_delays (source lines 101-151)

The loop is embedded as a deterministic function of an oracle `DlEnv`:
`attemptOutcome p a` is what `loader.download_post` does on the download
attempt with attempt counter `a` for the post at position `p` of
`profile.get_posts()` (success, `ConnectionException`, another exception,
or `KeyboardInterrupt`); `rand k` is the `k`-th draw consumed by
`random.uniform`, scaled to `[0,1)` (so `random.uniform(a, b)` returns
`a + (b - a) * rand k`); `sleepOk s` tells whether the `s`-th `time.sleep`
call completes (`false` means a `KeyboardInterrupt` arrives during it,
which the source does not catch there, so it propagates out of the
function). -/

/-- Outcome of one `loader.download_post` call. -/
inductive DlOutcome
  | success
  | connErr
  | otherErr
  | interrupt
deriving DecidableEq

/-- Oracle environment for one run of `download_posts_with_delays`. -/
structure DlEnv where
  attemptOutcome : Nat → Nat → DlOutcome
  rand : Nat → ℚ
  sleepOk : Nat → Bool

/-- Mutable state of the loop: the success counter `total` and the
positions reached in the two oracle streams. -/
structure DlSt where
  total : Nat
  k : Nat
  s : Nat
deriving DecidableEq

/-- `random.uniform a b` when the underlying draw is `r ∈ [0,1)`. -/
def uniform (a b r : ℚ) : ℚ := a + (b - a) * r

/-- Observable events of a run: download attempts (with the value of the
attempt counter at the call), backoff sleeps (with the attempt number the
retry is for and the wait passed to `time.sleep` — recorded even when the
sleep itself is cut short by an interrupt), and the pacing sleep after a
post (likewise recorded at the `time.sleep` call). -/
inductive Event
  | attemptEv (post attempt : Nat) (outcome : DlOutcome)
  | backoffEv (post attempt : Nat) (wait : ℚ)
  | pacingEv (post : Nat) (dur : ℚ)
deriving DecidableEq

/-- How the `while attempt <= per_post_retries` loop of one post ends:
`broke` = successful download (`break`), `ret` = `return total` from the
`KeyboardInterrupt` handler, `ki` = a `KeyboardInterrupt` arrived during a
backoff `time.sleep` and propagates, `exhausted` = the loop condition
became false after the retries were used up. -/
inductive RetryExit
  | broke
  | ret
  | ki
  | exhausted
deriving DecidableEq

/-- The per-post `while attempt <= per_post_retries` loop.  `fuel` is the
number of loop iterations still allowed, i.e. `per_post_retries + 1 -
attempt`; the loop condition `attempt <= per_post_retries` is exactly
`fuel > 0`, and each failing iteration increments `attempt` and decrements
`fuel`.  The two `except` clauses of the source (connection error / other
exception) do the same thing apart from the printed message, hence the two
identical failure branches.  Note that the source computes the backoff wait
and sleeps even on the final failing attempt, before the loop condition is
re-checked; the embedding does the same. -/
def retryLoop (env : DlEnv) (base : ℚ) (p : Nat) :
    Nat → Nat → DlSt → RetryExit × DlSt × List Event
  | _attempt, 0, st => (.exhausted, st, [])
  | attempt, fuel + 1, st =>
    match env.attemptOutcome p attempt with
    | .success =>
      (.broke, { st with total := st.total + 1 }, [.attemptEv p attempt .success])
    | .interrupt =>
      (.ret, st, [.attemptEv p attempt .interrupt])
    | .connErr =>
      let a := attempt + 1
      let w := base ^ a + uniform (1/2) 2 (env.rand st.k)
      let st1 : DlSt := { st with k := st.k + 1, s := st.s + 1 }
      if env.sleepOk st.s then
        match retryLoop env base p a fuel st1 with
        | (e, st2, tr) =>
          (e, st2, .attemptEv p attempt .connErr :: .backoffEv p a w :: tr)
      else
        (.ki, st1, [.attemptEv p attempt .connErr, .backoffEv p a w])
    | .otherErr =>
      let a := attempt + 1
      let w := base ^ a + uniform (1/2) 2 (env.rand st.k)
      let st1 : DlSt := { st with k := st.k + 1, s := st.s + 1 }
      if env.sleepOk st.s then
        match retryLoop env base p a fuel st1 with
        | (e, st2, tr) =>
          (e, st2, .attemptEv p attempt .otherErr :: .backoffEv p a w :: tr)
      else
        (.ki, st1, [.attemptEv p attempt .otherErr, .backoffEv p a w])

/-- How `download_posts_with_delays` terminates: `returned t` is a normal
`return` with value `t` (the final `return total` or the `return total`
inside the `KeyboardInterrupt` handler), `raisedKI` means a
`KeyboardInterrupt` arrived during a `time.sleep` outside the `try` block
and propagated out of the function. -/
inductive DlResult
  | returned (total : Nat)
  | raisedKI
deriving DecidableEq

/-- The `for post in posts_iter` loop over the remaining `n` posts,
starting at post position `p` with state `st`.  After the per-post loop
ends in `broke` or `exhausted`, the pacing sleep
`random.uniform(min_delay, max_delay) + random.uniform(0.0, 1.2)`
is performed before moving to the next post. -/
def dlGo (env : DlEnv) (minDelay maxDelay base : ℚ) (retries : Nat) :
    Nat → Nat → DlSt → DlResult × List Event
  | 0, _p, st => (.returned st.total, [])
  | n + 1, p, st =>
    match retryLoop env base p 0 (retries + 1) st with
    | (.ret, st1, tr1) => (.returned st1.total, tr1)
    | (.ki, _st1, tr1) => (.raisedKI, tr1)
    | (_, st1, tr1) =>
      let d := uniform minDelay maxDelay (env.rand st1.k) + uniform 0 (6/5) (env.rand (st1.k + 1))
      let st2 : DlSt := { st1 with k := st1.k + 2, s := st1.s + 1 }
      if env.sleepOk st1.s then
        match dlGo env minDelay maxDelay base retries n (p + 1) st2 with
        | (r, tr2) => (r, tr1 ++ Event.pacingEv p d :: tr2)
      else
        (.raisedKI, tr1 ++ [Event.pacingEv p d])

/-- `download_posts_with_delays` on a profile whose `get_posts()` yields
`n` posts, with the same parameter order as the source
(`min_delay`, `max_delay`, `per_post_retries`, `backoff_base`). -/
def download_posts_with_delays (env : DlEnv) (n : Nat)
    (minDelay maxDelay : ℚ) (retries : Nat) (base : ℚ) : DlResult × List Event :=
  dlGo env minDelay maxDelay base retries n 0 ⟨0, 0, 0⟩

/-- Is this event a download attempt? -/
def Event.isAttempt : Event → Bool
  | .attemptEv _ _ _ => true
  | _ => false

/-- Is this event a download attempt of the post at position `q`? -/
def Event.isAttemptOf (q : Nat) : Event → Bool
  | .attemptEv p _ _ => p == q
  | _ => false

/-- Is this event a pacing sleep? -/
def Event.isPacing : Event → Bool
  | .pacingEv _ _ => true
  | _ => false

/-- Did the run end in a normal `return`? -/
def DlResult.isReturned : DlResult → Bool
  | .returned _ => true
  | .raisedKI => false

/-- The value returned by a normal `return` (0 for a propagated interrupt). -/
def DlResult.count : DlResult → Nat
  | .returned t => t
  | .raisedKI => 0

/-- Environment in which every download attempt raises a connection error. -/
def envC2w : DlEnv := ⟨fun _ _ => .connErr, fun _ => 0, fun _ => true⟩

/-- Environment with one post failing every attempt, used to exhibit a
backoff sleep. -/
def envC3w : DlEnv := ⟨fun _ _ => .connErr, fun _ => 0, fun _ => true⟩

/-- Environment in which every download succeeds at once. -/
def envC4w : DlEnv := ⟨fun _ _ => .success, fun _ => 0, fun _ => true⟩

/-- Environment where the first download succeeds and the following pacing
sleep is hit by a `KeyboardInterrupt`. -/
def envC5ce : DlEnv := ⟨fun _ _ => .success, fun _ => 0, fun _ => false⟩

/-- Environment where post 0 succeeds at once and post 1 is interrupted
during its download. -/
def envC5w : DlEnv :=
  ⟨fun p _ => if p = 0 then .success else .interrupt, fun _ => 0, fun _ => true⟩

/-- Environment in which every download attempt raises a non-connection
exception. -/
def envC6w : DlEnv := ⟨fun _ _ => .otherErr, fun _ => 0, fun _ => true⟩

/-! ## login_with_session (source lines 50-98)

The external `instaloader` calls are oracles in a `LoginEnv`:
`loadSession u` is what `loader.load_session_from_file(u)` does (loads, or
raises `FileNotFoundError`); `credentials` is what `get_credentials()`
returns; `loginResult` is what `loader.login(user, passwd)` does (succeeds,
raises `TwoFactorAuthRequiredException`, `LoginException`, or
`ConnectionException`); `twoFactorOk` is whether `loader.two_factor_login`
succeeds.  `save_session_to_file` failures only change a printed message,
never the result, so only the call itself is traced. -/

/-- Outcome of `loader.load_session_from_file`. -/
inductive LoadRes
  | ok
  | fileNotFound
deriving DecidableEq

/-- Outcome of `loader.login`. -/
inductive LoginRes
  | success
  | twoFactorRequired
  | loginExc (msg : String)
  | connExc (msg : String)
deriving DecidableEq

/-- Oracle environment for one call of `login_with_session`. -/
structure LoginEnv where
  loadSession : String → LoadRes
  credentials : String × String
  loginResult : LoginRes
  twoFactorOk : Bool

/-- Result of `login_with_session`: the returned session username, or a
raised `RuntimeError` with its message. -/
inductive SessionResult
  | ok (user : String)
  | raisedRuntimeError (msg : String)
deriving DecidableEq

/-- External calls made by `login_with_session`, in order. -/
inductive LoginEv
  | loadSessionCall (user : String)
  | loginCall (user : String)
  | twoFactorLoginCall
  | saveSessionCall
deriving DecidableEq

/-- The interactive part of `login_with_session` (source lines 66-98):
prompt for credentials, sleep, `loader.login`, then the success / 2FA /
failure branches. -/
def interactiveLogin (env : LoginEnv) : SessionResult × List LoginEv :=
  let user := env.credentials.1
  match env.loginResult with
  | .success =>
    (.ok user, [.loginCall user, .saveSessionCall])
  | .twoFactorRequired =>
    if env.twoFactorOk then
      (.ok user, [.loginCall user, .twoFactorLoginCall, .saveSessionCall])
    else
      (.raisedRuntimeError "2FA login failed", [.loginCall user, .twoFactorLoginCall])
  | .loginExc e =>
    (.raisedRuntimeError ("Login failed: " ++ e), [.loginCall user])
  | .connExc e =>
    (.raisedRuntimeError ("Connection error during login: " ++ e), [.loginCall user])

/-- `login_with_session(loader, username, allow_interactive)`: try the
persisted session for the preferred identifier if one is given (a missing
session file only prints a warning), then fail if interactive login is
disallowed, else run the interactive flow. -/
def login_with_session (env : LoginEnv) (username : Option String)
    (allowInteractive : Bool) : SessionResult × List LoginEv :=
  match username with
  | some u =>
    match env.loadSession u with
    | .ok => (.ok u, [.loadSessionCall u])
    | .fileNotFound =>
      if allowInteractive then
        ((interactiveLogin env).1, .loadSessionCall u :: (interactiveLogin env).2)
      else
        (.raisedRuntimeError "No session available and interactive login disabled.",
         [.loadSessionCall u])
  | none =>
    if allowInteractive then
      interactiveLogin env
    else
      (.raisedRuntimeError "No session available and interactive login disabled.", [])

/-- Concrete login environment whose persisted session always loads. -/
def lenvC7w : LoginEnv := ⟨fun _ => .ok, ("alice", "pw"), .success, true⟩

/-- Concrete login environment with no persisted session. -/
def lenvC7w2 : LoginEnv := ⟨fun _ => .fileNotFound, ("alice", "pw"), .success, true⟩

/-! ## main (source lines 154-232)

`main` is embedded over a `MainEnv` fixing the interactive inputs and what
the external calls do: the DNS preflight result, the target and session
inputs, a `LoginEnv` for the login phase, the answer to the
"Continue without login?" prompt, the outcome of
`instaloader.Profile.from_username`, the outcome of the
`profile.is_private` / `loader.test_login()` check (where `raises` covers
the caught exception of that `try` block), and a `DlEnv` with a post count
for the download phase.  The result is the process exit code (`sys.exit(1)`
gives 1, falling off the end of `main` gives 0) together with the
user-facing messages printed by `main` in the phase where control ends and
a `downloadStarted` marker emitted when `download_posts_with_delays` is
invoked.  (Messages printed inside `login_with_session` are in that
function's own trace; the login-error message is recorded here since `main`
prints it.) -/

/-- Outcome of `instaloader.Profile.from_username`. -/
inductive ProfileRes
  | resolved (isPrivate : Bool)
  | notExists
  | notFound
  | connErr (msg : String)
  | otherErr (msg : String)
deriving DecidableEq

/-- Outcome of the `profile.is_private`-guarded `loader.test_login()`
check: the session is reported valid, reported invalid, or the check
itself raises (the surrounding `except Exception: pass` then applies). -/
inductive TestLoginRes
  | valid
  | invalid
  | raises
deriving DecidableEq

/-- Observable events of `main`. -/
inductive MainEv
  | msg (s : String)
  | downloadStarted
deriving DecidableEq

/-- Oracle environment for one run of `main`. -/
structure MainEnv where
  dnsOk : Bool
  dnsErrMsg : String
  targetInput : String
  sessionInput : String
  lenv : LoginEnv
  proceedInput : String
  resolution : ProfileRes
  testLogin : TestLoginRes
  dlenv : DlEnv
  nPosts : Nat

/-- `input(...).strip() or None` for the optional session username. -/
def sessionUserOf (env : MainEnv) : Option String :=
  if pyStrip env.sessionInput = "" then none else some (pyStrip env.sessionInput)

/-- The download phase of `main`: call `download_posts_with_delays` with
`MIN_DELAY = 4.0`, `MAX_DELAY = 9.0`, `PER_POST_RETRIES = 3`,
`backoff_base = 2.0`; a `KeyboardInterrupt` from it is caught and `main`
returns normally, so the exit code is 0 either way. -/
def downloadPhase (env : MainEnv) : Nat × List MainEv :=
  match (download_posts_with_delays env.dlenv env.nPosts 4 9 3 2).1 with
  | .returned _t => (0, [.downloadStarted])
  | .raisedKI => (0, [.downloadStarted, .msg "⛔ Interrupted by user. Exiting."])

/-- Profile resolution and the private-profile check (source lines
188-212), then the download phase. -/
def resolvePhase (env : MainEnv) : Nat × List MainEv :=
  let target := pyStrip env.targetInput
  match env.resolution with
  | .notExists =>
    (1, [.msg ("❌ The profile \x27" ++ target ++ "\x27 does not exist.")])
  | .notFound =>
    (1, [.msg "❌ Query returned not found. Instagram may have changed the API or blocked the request."])
  | .connErr e =>
    (1, [.msg ("❌ Connection error when fetching profile: " ++ e)])
  | .otherErr e =>
    (1, [.msg ("❌ Unexpected error when fetching profile: " ++ e)])
  | .resolved isPrivate =>
    if isPrivate then
      match env.testLogin with
      | .invalid =>
        (1, [.msg ("❌ The profile \x27" ++ target ++
          "\x27 is private. You must be logged in and follow them.")])
      | _ => downloadPhase env
    else
      downloadPhase env

/-- `main`: DNS preflight, target prompt, session/login phase with the
continue-without-login fallback, then resolution and download. -/
def mainModel (env : MainEnv) : Nat × List MainEv :=
  if env.dnsOk then
    if pyStrip env.targetInput = "" then
      (1, [.msg "No username provided. Exiting."])
    else
      match (login_with_session env.lenv (sessionUserOf env) true).1 with
      | .ok _u => resolvePhase env
      | .raisedRuntimeError e =>
        if pyLower (pyStrip env.proceedInput) = "yes" then
          ((resolvePhase env).1,
           .msg ("❌ Login/session error: " ++ e) :: (resolvePhase env).2)
        else
          (1, [.msg ("❌ Login/session error: " ++ e)])
  else
    (1, [.msg ("❌ DNS/Network check failed: " ++ env.dnsErrMsg),
         .msg "Please check your internet connection / DNS (try 8.8.8.8 or 1.1.1.1). Exiting."])

/-- Did `login_with_session` raise? -/
def SessionResult.isErr : SessionResult → Bool
  | .raisedRuntimeError _ => true
  | .ok _ => false

/-- Is this resolution outcome one of the four fatal ones? -/
def ProfileRes.isFatal : ProfileRes → Bool
  | .resolved _ => false
  | _ => true

/-- Main environment reaching the private-profile check with an invalid
session. -/
def menvC8a : MainEnv :=
  ⟨true, "e", "alice", "", lenvC7w, "", .resolved true, .invalid, envC4w, 0⟩

/-- Main environment reaching the private-profile check whose validity
check raises. -/
def menvC8b : MainEnv :=
  ⟨true, "e", "alice", "", lenvC7w, "", .resolved true, .raises, envC4w, 0⟩

/-- Main environment whose profile resolution raises "does not exist". -/
def menvC9w : MainEnv :=
  ⟨true, "e", "alice", "", lenvC7w, "", .notExists, .valid, envC4w, 0⟩

/-! ## Lemmas and claim theorems -/

lemma substChar_not_bad (c : Char) : badChars.contains (substChar c) = false := by
  unfold substChar
  by_cases h : badChars.contains c = true
  · rw [if_pos h]
    decide
  · rw [if_neg h]
    exact Bool.eq_false_iff.mpr h

lemma mem_sanitize_mem_map {s : List Char} {c : Char}
    (h : c ∈ sanitize_filename s) : c ∈ s.map substChar := by
  unfold sanitize_filename stripChars rstrip lstrip at h
  have h1 : c ∈ ((s.map substChar).dropWhile isStripChar).reverse.dropWhile isStripChar :=
    List.mem_reverse.mp h
  have h2 : c ∈ ((s.map substChar).dropWhile isStripChar).reverse :=
    (List.dropWhile_sublist isStripChar).subset h1
  have h3 : c ∈ (s.map substChar).dropWhile isStripChar := List.mem_reverse.mp h2
  exact (List.dropWhile_sublist isStripChar).subset h3

lemma sanitize_no_bad {s : List Char} {c : Char}
    (h : c ∈ sanitize_filename s) : badChars.contains c = false := by
  rcases List.mem_map.mp (mem_sanitize_mem_map h) with ⟨a, _, rfl⟩
  exact substChar_not_bad a

lemma noLead_dropWhile (l : List Char) : noLead (l.dropWhile isStripChar) := by
  intro c hc
  have h := List.head?_dropWhile_not isStripChar l
  rw [hc] at h
  exact h

lemma dropWhile_eq_self_of_noLead {l : List Char} (h : noLead l) :
    l.dropWhile isStripChar = l := by
  cases l with
  | nil => rfl
  | cons a t =>
    have ha : isStripChar a = false := h a rfl
    simp [List.dropWhile_cons, ha]

lemma noLead_of_isPre {x z : List Char} (hpre : x <+: z) (hz : noLead z) :
    noLead x := by
  intro c hc
  rcases hpre with ⟨t, rfl⟩
  cases x with
  | nil => simp at hc
  | cons a y =>
    have hac : a = c := by simpa using hc
    subst hac
    exact hz a (by simp)

lemma rstrip_isPre (z : List Char) : rstrip z <+: z := by
  have h : z.reverse.dropWhile isStripChar <:+ z.reverse :=
    List.dropWhile_suffix isStripChar
  have h2 : (z.reverse.dropWhile isStripChar).reverse.reverse <:+ z.reverse := by
    simpa using h
  exact List.reverse_suffix.mp h2

lemma noLead_stripChars (l : List Char) : noLead (stripChars l) := by
  have h1 : noLead (lstrip l) := noLead_dropWhile l
  exact noLead_of_isPre (rstrip_isPre (lstrip l)) h1

lemma lstrip_stripChars (l : List Char) : lstrip (stripChars l) = stripChars l :=
  dropWhile_eq_self_of_noLead (noLead_stripChars l)

lemma rstrip_rstrip (z : List Char) : rstrip (rstrip z) = rstrip z := by
  unfold rstrip
  rw [List.reverse_reverse]
  have h : noLead (z.reverse.dropWhile isStripChar) := noLead_dropWhile z.reverse
  rw [dropWhile_eq_self_of_noLead h]

lemma rstrip_stripChars (l : List Char) : rstrip (stripChars l) = stripChars l := by
  unfold stripChars
  exact rstrip_rstrip (lstrip l)

lemma stripChars_stripChars (l : List Char) :
    stripChars (stripChars l) = stripChars l := by
  show rstrip (lstrip (stripChars l)) = stripChars l
  rw [lstrip_stripChars, rstrip_stripChars]

lemma map_substChar_id_of_no_bad {l : List Char}
    (h : ∀ c ∈ l, badChars.contains c = false) : l.map substChar = l := by
  induction l with
  | nil => rfl
  | cons a t ih =>
    have ha : badChars.contains a = false := h a (List.mem_cons_self a t)
    have ht : ∀ c ∈ t, badChars.contains c = false := fun c hc => h c (List.mem_cons_of_mem a hc)
    simp only [List.map_cons, ih ht]
    have hsa : substChar a = a := by
      unfold substChar
      rw [if_neg]
      simpa using ha
    rw [hsa]

/-- C1: for every handle, the sanitised destination name contains none of
the characters `<>:"/\|?*`, newline, carriage-return, or tab, and has no
leading or trailing whitespace (stripping again changes nothing on either
end); and the handle `"a/b:c"` yields `"a_b_c"`. -/
theorem C1_sanitize :
    (∀ s : List Char,
      (sanitize_filename s).all (fun c => !(badChars.contains c)) = true ∧
      (sanitize_filename s).dropWhile isStripChar = sanitize_filename s ∧
      (sanitize_filename s).reverse.dropWhile isStripChar = (sanitize_filename s).reverse) ∧
    sanitize_filename ("a/b:c".toList) = "a_b_c".toList := by
  constructor
  · intro s
    refine ⟨?_, ?_, ?_⟩
    · rw [List.all_eq_true]
      intro c hc
      rw [sanitize_no_bad hc]
      rfl
    · have h : lstrip (sanitize_filename s) = sanitize_filename s := by
        unfold sanitize_filename
        exact lstrip_stripChars _
      exact h
    · have h : rstrip (sanitize_filename s) = sanitize_filename s := by
        unfold sanitize_filename
        exact rstrip_stripChars _
      unfold rstrip at h
      have := congrArg List.reverse h
      rw [List.reverse_reverse] at this
      exact this
  · decide

/-- C10: the sanitiser is idempotent: sanitising an already-sanitised
handle leaves it unchanged. -/
theorem C10_sanitize_idempotent :
    ∀ s : List Char, sanitize_filename (sanitize_filename s) = sanitize_filename s := by
  intro s
  show stripChars ((sanitize_filename s).map substChar) = sanitize_filename s
  rw [map_substChar_id_of_no_bad (fun c hc => sanitize_no_bad hc)]
  unfold sanitize_filename
  exact stripChars_stripChars _

lemma uniform_ge (a b r : ℚ) (h0 : 0 ≤ r) (hab : a ≤ b) : a ≤ uniform a b r := by
  unfold uniform
  nlinarith

lemma uniform_le (a b r : ℚ) (h0 : 0 ≤ r) (h1 : r < 1) (hab : a ≤ b) :
    uniform a b r ≤ b := by
  unfold uniform
  nlinarith

lemma uniform_jitter_bounds (r : ℚ) (h0 : 0 ≤ r) (h1 : r < 1) :
    1/2 ≤ uniform (1/2) 2 r ∧ uniform (1/2) 2 r < 2 := by
  unfold uniform
  constructor <;> nlinarith

lemma uniform_tiny_bounds (r : ℚ) (h0 : 0 ≤ r) (h1 : r < 1) :
    0 ≤ uniform 0 (6/5) r ∧ uniform 0 (6/5) r < 6/5 := by
  unfold uniform
  constructor <;> nlinarith

/-- If every attempt on post `p` fails with a non-interrupt error and every
sleep completes, the per-post loop runs its full fuel, leaves the success
counter unchanged, exits with `exhausted`, performs one download attempt
and one backoff sleep per unit of fuel, and emits no pacing event. -/
lemma retryLoop_allFail (env : DlEnv) (base : ℚ) (p : Nat)
    (hf : ∀ a, env.attemptOutcome p a = .connErr ∨ env.attemptOutcome p a = .otherErr)
    (hs : ∀ s, env.sleepOk s = true) :
    ∀ fuel attempt t k s, ∃ tr,
      retryLoop env base p attempt fuel ⟨t, k, s⟩ =
        (.exhausted, ⟨t, k + fuel, s + fuel⟩, tr) ∧
      (∀ q, tr.countP (Event.isAttemptOf q) = if q = p then fuel else 0) ∧
      tr.countP Event.isPacing = 0 := by
  intro fuel
  induction fuel with
  | zero =>
    intro attempt t k s
    exact ⟨[], by simp [retryLoop], by simp, by simp⟩
  | succ fuel ih =>
    intro attempt t k s
    obtain ⟨tr, htr, hcnt, hpac⟩ := ih (attempt + 1) t (k + 1) (s + 1)
    have hk : k + 1 + fuel = k + (fuel + 1) := by omega
    have hsn : s + 1 + fuel = s + (fuel + 1) := by omega
    rcases hf attempt with h | h
    · refine ⟨Event.attemptEv p attempt .connErr ::
        Event.backoffEv p (attempt + 1) (base ^ (attempt + 1) + uniform (1/2) 2 (env.rand k)) ::
        tr, ?_, ?_, ?_⟩
      · simp only [retryLoop, h, hs, htr]
        simp [hk, hsn]
      · intro q
        by_cases hq : q = p
        · subst hq
          simp [Event.isAttemptOf, List.countP_cons, hcnt q]
        · have hpq : (p == q) = false := by simp [Ne.symm hq]
          simp [Event.isAttemptOf, List.countP_cons, hpq, hq, hcnt q]
      · simpa [Event.isPacing, List.countP_cons] using hpac
    · refine ⟨Event.attemptEv p attempt .otherErr ::
        Event.backoffEv p (attempt + 1) (base ^ (attempt + 1) + uniform (1/2) 2 (env.rand k)) ::
        tr, ?_, ?_, ?_⟩
      · simp only [retryLoop, h, hs, htr]
        simp [hk, hsn]
      · intro q
        by_cases hq : q = p
        · subst hq
          simp [Event.isAttemptOf, List.countP_cons, hcnt q]
        · have hpq : (p == q) = false := by simp [Ne.symm hq]
          simp [Event.isAttemptOf, List.countP_cons, hpq, hq, hcnt q]
      · simpa [Event.isPacing, List.countP_cons] using hpac

/-- The per-post loop never emits a pacing event. -/
lemma retryLoop_no_pacing (env : DlEnv) (base : ℚ) (p : Nat) :
    ∀ fuel attempt st q d,
      Event.pacingEv q d ∉ (retryLoop env base p attempt fuel st).2.2 := by
  intro fuel
  induction fuel with
  | zero =>
    intro attempt st q d
    simp [retryLoop]
  | succ fuel ih =>
    intro attempt st q d
    rcases h : env.attemptOutcome p attempt with _ | _ | _ | _ <;>
      simp only [retryLoop, h]
    · simp
    · by_cases hsl : env.sleepOk st.s
      · rcases hl : retryLoop env base p (attempt + 1) fuel
          { st with k := st.k + 1, s := st.s + 1 } with ⟨e, st2, tr⟩
        have := ih (attempt + 1) { st with k := st.k + 1, s := st.s + 1 } q d
        rw [hl] at this
        simp [hsl, hl]
        simpa using this
      · simp [hsl]
    · by_cases hsl : env.sleepOk st.s
      · rcases hl : retryLoop env base p (attempt + 1) fuel
          { st with k := st.k + 1, s := st.s + 1 } with ⟨e, st2, tr⟩
        have := ih (attempt + 1) { st with k := st.k + 1, s := st.s + 1 } q d
        rw [hl] at this
        simp [hsl, hl]
        simpa using this
      · simp [hsl]
    · simp

/-- Every backoff event emitted by the per-post loop carries an attempt
number `a ≥ 1` and a wait in `[base ^ a + 1/2, base ^ a + 2)`, provided the
uniform draws lie in `[0,1)`. -/
lemma retryLoop_backoff_bounds (env : DlEnv) (base : ℚ) (p : Nat)
    (hr : ∀ k, 0 ≤ env.rand k ∧ env.rand k < 1) :
    ∀ fuel attempt st q a w,
      Event.backoffEv q a w ∈ (retryLoop env base p attempt fuel st).2.2 →
      1 ≤ a ∧ base ^ a + 1/2 ≤ w ∧ w < base ^ a + 2 := by
  intro fuel
  induction fuel with
  | zero =>
    intro attempt st q a w hmem
    simp [retryLoop] at hmem
  | succ fuel ih =>
    intro attempt st q a w hmem
    have hj := uniform_jitter_bounds (env.rand st.k) (hr st.k).1 (hr st.k).2
    rcases h : env.attemptOutcome p attempt with _ | _ | _ | _ <;>
      simp only [retryLoop, h] at hmem
    · simp at hmem
    · by_cases hsl : env.sleepOk st.s
      · rcases hl : retryLoop env base p (attempt + 1) fuel
          { st with k := st.k + 1, s := st.s + 1 } with ⟨e, st2, tr⟩
        rw [if_pos hsl, hl] at hmem
        simp only [List.mem_cons] at hmem
        rcases hmem with h1 | h1 | h1
        · exact absurd h1 (by simp)
        · obtain ⟨rfl, rfl, rfl⟩ : q = p ∧ a = attempt + 1 ∧
              w = base ^ (attempt + 1) + uniform (1/2) 2 (env.rand st.k) := by
            simpa [eq_comm] using h1
          refine ⟨by omega, by linarith [hj.1], by linarith [hj.2]⟩
        · have := ih (attempt + 1) { st with k := st.k + 1, s := st.s + 1 } q a w
          rw [hl] at this
          exact this h1
      · rw [if_neg hsl] at hmem
        simp only [List.mem_cons] at hmem
        rcases hmem with h1 | h1 | h1
        · exact absurd h1 (by simp)
        · obtain ⟨rfl, rfl, rfl⟩ : q = p ∧ a = attempt + 1 ∧
              w = base ^ (attempt + 1) + uniform (1/2) 2 (env.rand st.k) := by
            simpa [eq_comm] using h1
          refine ⟨by omega, by linarith [hj.1], by linarith [hj.2]⟩
        · simp at h1
    · by_cases hsl : env.sleepOk st.s
      · rcases hl : retryLoop env base p (attempt + 1) fuel
          { st with k := st.k + 1, s := st.s + 1 } with ⟨e, st2, tr⟩
        rw [if_pos hsl, hl] at hmem
        simp only [List.mem_cons] at hmem
        rcases hmem with h1 | h1 | h1
        · exact absurd h1 (by simp)
        · obtain ⟨rfl, rfl, rfl⟩ : q = p ∧ a = attempt + 1 ∧
              w = base ^ (attempt + 1) + uniform (1/2) 2 (env.rand st.k) := by
            simpa [eq_comm] using h1
          refine ⟨by omega, by linarith [hj.1], by linarith [hj.2]⟩
        · have := ih (attempt + 1) { st with k := st.k + 1, s := st.s + 1 } q a w
          rw [hl] at this
          exact this h1
      · rw [if_neg hsl] at hmem
        simp only [List.mem_cons] at hmem
        rcases hmem with h1 | h1 | h1
        · exact absurd h1 (by simp)
        · obtain ⟨rfl, rfl, rfl⟩ : q = p ∧ a = attempt + 1 ∧
              w = base ^ (attempt + 1) + uniform (1/2) 2 (env.rand st.k) := by
            simpa [eq_comm] using h1
          refine ⟨by omega, by linarith [hj.1], by linarith [hj.2]⟩
        · simp at h1
    · simp at hmem

/-- If every sleep completes, the per-post loop never exits by a
propagating `KeyboardInterrupt`. -/
lemma retryLoop_no_ki (env : DlEnv) (base : ℚ) (p : Nat)
    (hs : ∀ s, env.sleepOk s = true) :
    ∀ fuel attempt st, (retryLoop env base p attempt fuel st).1 ≠ .ki := by
  intro fuel
  induction fuel with
  | zero =>
    intro attempt st
    simp [retryLoop]
  | succ fuel ih =>
    intro attempt st
    rcases h : env.attemptOutcome p attempt with _ | _ | _ | _ <;>
      simp only [retryLoop, h]
    · simp
    · rcases hl : retryLoop env base p (attempt + 1) fuel
        { st with k := st.k + 1, s := st.s + 1 } with ⟨e, st2, tr⟩
      have := ih (attempt + 1) { st with k := st.k + 1, s := st.s + 1 }
      rw [hl] at this
      simp [hs st.s, hl]
      exact this
    · rcases hl : retryLoop env base p (attempt + 1) fuel
        { st with k := st.k + 1, s := st.s + 1 } with ⟨e, st2, tr⟩
      have := ih (attempt + 1) { st with k := st.k + 1, s := st.s + 1 }
      rw [hl] at this
      simp [hs st.s, hl]
      exact this
    · simp

/-- If no download attempt on post `p` is hit by an interrupt, the per-post
loop never exits by `return` from the interrupt handler. -/
lemma retryLoop_no_ret (env : DlEnv) (base : ℚ) (p : Nat)
    (hni : ∀ a, env.attemptOutcome p a ≠ .interrupt) :
    ∀ fuel attempt st, (retryLoop env base p attempt fuel st).1 ≠ .ret := by
  intro fuel
  induction fuel with
  | zero =>
    intro attempt st
    simp [retryLoop]
  | succ fuel ih =>
    intro attempt st
    rcases h : env.attemptOutcome p attempt with _ | _ | _ | _
    · simp [retryLoop, h]
    · simp only [retryLoop, h]
      by_cases hsl : env.sleepOk st.s
      · rcases hl : retryLoop env base p (attempt + 1) fuel
          { st with k := st.k + 1, s := st.s + 1 } with ⟨e, st2, tr⟩
        have := ih (attempt + 1) { st with k := st.k + 1, s := st.s + 1 }
        rw [hl] at this
        simp [hsl, hl]
        exact this
      · simp [hsl]
    · simp only [retryLoop, h]
      by_cases hsl : env.sleepOk st.s
      · rcases hl : retryLoop env base p (attempt + 1) fuel
          { st with k := st.k + 1, s := st.s + 1 } with ⟨e, st2, tr⟩
        have := ih (attempt + 1) { st with k := st.k + 1, s := st.s + 1 }
        rw [hl] at this
        simp [hsl, hl]
        exact this
      · simp [hsl]
    · exact absurd h (hni attempt)

/-- The success counter moves by at most one during one per-post loop, and
never decreases. -/
lemma retryLoop_total_bounds (env : DlEnv) (base : ℚ) (p : Nat) :
    ∀ fuel attempt st,
      st.total ≤ (retryLoop env base p attempt fuel st).2.1.total ∧
      (retryLoop env base p attempt fuel st).2.1.total ≤ st.total + 1 := by
  intro fuel
  induction fuel with
  | zero =>
    intro attempt st
    simp [retryLoop]
  | succ fuel ih =>
    intro attempt st
    rcases h : env.attemptOutcome p attempt with _ | _ | _ | _ <;>
      simp only [retryLoop, h]
    · simp
    · by_cases hsl : env.sleepOk st.s
      · rcases hl : retryLoop env base p (attempt + 1) fuel
          { st with k := st.k + 1, s := st.s + 1 } with ⟨e, st2, tr⟩
        have := ih (attempt + 1) { st with k := st.k + 1, s := st.s + 1 }
        rw [hl] at this
        simp only [hsl, if_true, hl]
        simpa using this
      · simp [hsl]
    · by_cases hsl : env.sleepOk st.s
      · rcases hl : retryLoop env base p (attempt + 1) fuel
          { st with k := st.k + 1, s := st.s + 1 } with ⟨e, st2, tr⟩
        have := ih (attempt + 1) { st with k := st.k + 1, s := st.s + 1 }
        rw [hl] at this
        simp only [hsl, if_true, hl]
        simpa using this
      · simp [hsl]
    · simp

/-- The trace of one per-post loop contains no pacing event (count form). -/
lemma retryLoop_countP_pacing (env : DlEnv) (base : ℚ) (p fuel attempt : Nat) (st : DlSt) :
    ((retryLoop env base p attempt fuel st).2.2).countP Event.isPacing = 0 := by
  rw [List.countP_eq_zero]
  intro e he
  cases e with
  | attemptEv q a o => simp [Event.isPacing]
  | backoffEv q a w => simp [Event.isPacing]
  | pacingEv q d =>
    intro _
    exact retryLoop_no_pacing env base p fuel attempt st q d he

/-- C2 engine: if every attempt of every post fails with a non-interrupt
error and every sleep completes, the whole loop returns with the counter
unchanged and each of the `n` posts at positions `p, …, p + n - 1` receives
exactly `R + 1` download attempts. -/
lemma dlGo_allFail (env : DlEnv) (minD maxD base : ℚ) (R : Nat)
    (hf : ∀ p a, env.attemptOutcome p a = .connErr ∨ env.attemptOutcome p a = .otherErr)
    (hs : ∀ s, env.sleepOk s = true) :
    ∀ n p t k s,
      (dlGo env minD maxD base R n p ⟨t, k, s⟩).1 = .returned t ∧
      ∀ q, ((dlGo env minD maxD base R n p ⟨t, k, s⟩).2).countP (Event.isAttemptOf q) =
        if p ≤ q ∧ q < p + n then R + 1 else 0 := by
  intro n
  induction n with
  | zero =>
    intro p t k s
    refine ⟨by simp [dlGo], ?_⟩
    intro q
    simp only [dlGo, List.countP_nil]
    rw [if_neg (by omega)]
  | succ n ih =>
    intro p t k s
    obtain ⟨tr, htr, hcnt, hpac⟩ :=
      retryLoop_allFail env base p (hf p) hs (R + 1) 0 t k s
    rcases hgo : dlGo env minD maxD base R n (p + 1)
        ⟨t, k + (R + 1) + 2, s + (R + 1) + 1⟩ with ⟨r2, tr2⟩
    have ihh := ih (p + 1) t (k + (R + 1) + 2) (s + (R + 1) + 1)
    rw [hgo] at ihh
    constructor
    · simp only [dlGo, htr, hs, hgo]
      simp
      exact ihh.1
    · intro q
      simp only [dlGo, htr, hs, hgo]
      simp only [if_true, List.countP_append, List.countP_cons]
      have h2 := ihh.2 q
      simp only at h2
      rw [hcnt q, h2]
      simp [Event.isAttemptOf]
      split_ifs <;> omega

/-- C3 engine: every backoff event in a full run has attempt number at
least 1 and wait in `[base ^ a + 1/2, base ^ a + 2)`. -/
lemma dlGo_backoff_bounds (env : DlEnv) (minD maxD base : ℚ) (R : Nat)
    (hr : ∀ k, 0 ≤ env.rand k ∧ env.rand k < 1) :
    ∀ n p st q a w,
      Event.backoffEv q a w ∈ (dlGo env minD maxD base R n p st).2 →
      1 ≤ a ∧ base ^ a + 1/2 ≤ w ∧ w < base ^ a + 2 := by
  intro n
  induction n with
  | zero =>
    intro p st q a w hmem
    simp [dlGo] at hmem
  | succ n ih =>
    intro p st q a w hmem
    rcases hl : retryLoop env base p 0 (R + 1) st with ⟨e, st1, tr1⟩
    have hretry := retryLoop_backoff_bounds env base p hr (R + 1) 0 st q a w
    rw [hl] at hretry
    cases e
    case broke | exhausted =>
      by_cases hsl : env.sleepOk st1.s
      · rcases hgo : dlGo env minD maxD base R n (p + 1)
            { st1 with k := st1.k + 2, s := st1.s + 1 } with ⟨r2, tr2⟩
        simp only [dlGo, hl, hsl, if_true, hgo] at hmem
        rcases List.mem_append.mp hmem with h1 | h1
        · exact hretry h1
        · rcases List.mem_cons.mp h1 with h2 | h2
          · exact absurd h2 (by simp)
          · have := ih (p + 1) { st1 with k := st1.k + 2, s := st1.s + 1 } q a w
            rw [hgo] at this
            exact this h2
      · simp only [dlGo, hl, hsl, if_false] at hmem
        rcases List.mem_append.mp hmem with h1 | h1
        · exact hretry h1
        · exact absurd (List.mem_singleton.mp h1) (by simp)
    case ret =>
      simp only [dlGo, hl] at hmem
      exact hretry hmem
    case ki =>
      simp only [dlGo, hl] at hmem
      exact hretry hmem

/-- C4 engine (interval): every pacing event in a full run has duration in
`[minD, maxD + 6/5)`, provided `minD ≤ maxD` and the draws are in `[0,1)`. -/
lemma dlGo_pacing_bounds (env : DlEnv) (minD maxD base : ℚ) (R : Nat)
    (hr : ∀ k, 0 ≤ env.rand k ∧ env.rand k < 1) (hmm : minD ≤ maxD) :
    ∀ n p st q d,
      Event.pacingEv q d ∈ (dlGo env minD maxD base R n p st).2 →
      minD ≤ d ∧ d < maxD + 6/5 := by
  intro n
  induction n with
  | zero =>
    intro p st q d hmem
    simp [dlGo] at hmem
  | succ n ih =>
    intro p st q d hmem
    rcases hl : retryLoop env base p 0 (R + 1) st with ⟨e, st1, tr1⟩
    have hnotr : Event.pacingEv q d ∉ tr1 := by
      have := retryLoop_no_pacing env base p (R + 1) 0 st q d
      rw [hl] at this
      exact this
    have hd1 := uniform_ge minD maxD (env.rand st1.k) (hr st1.k).1 hmm
    have hd2 := uniform_le minD maxD (env.rand st1.k) (hr st1.k).1 (hr st1.k).2 hmm
    have hd3 := uniform_tiny_bounds (env.rand (st1.k + 1)) (hr (st1.k + 1)).1 (hr (st1.k + 1)).2
    cases e
    case broke | exhausted =>
      by_cases hsl : env.sleepOk st1.s
      · rcases hgo : dlGo env minD maxD base R n (p + 1)
            { st1 with k := st1.k + 2, s := st1.s + 1 } with ⟨r2, tr2⟩
        simp only [dlGo, hl, hsl, if_true, hgo] at hmem
        rcases List.mem_append.mp hmem with h1 | h1
        · exact absurd h1 hnotr
        · rcases List.mem_cons.mp h1 with h2 | h2
          · obtain ⟨rfl, rfl⟩ : q = p ∧ d = uniform minD maxD (env.rand st1.k) +
                uniform 0 (6/5) (env.rand (st1.k + 1)) := by
              simpa [eq_comm] using h2
            constructor
            · linarith [hd3.1]
            · linarith [hd3.2]
          · have := ih (p + 1) { st1 with k := st1.k + 2, s := st1.s + 1 } q d
            rw [hgo] at this
            exact this h2
      · simp only [dlGo, hl, hsl, if_false] at hmem
        rcases List.mem_append.mp hmem with h1 | h1
        · exact absurd h1 hnotr
        · obtain ⟨rfl, rfl⟩ : q = p ∧ d = uniform minD maxD (env.rand st1.k) +
              uniform 0 (6/5) (env.rand (st1.k + 1)) := by
            simpa [eq_comm] using List.mem_singleton.mp h1
          constructor
          · linarith [hd3.1]
          · linarith [hd3.2]
    case ret =>
      simp only [dlGo, hl] at hmem
      exact absurd hmem hnotr
    case ki =>
      simp only [dlGo, hl] at hmem
      exact absurd hmem hnotr

/-- C4 engine (count): with no interrupts anywhere, a run over `n` posts
performs exactly one pacing sleep per post. -/
lemma dlGo_pacing_count (env : DlEnv) (minD maxD base : ℚ) (R : Nat)
    (hs : ∀ s, env.sleepOk s = true)
    (hni : ∀ p a, env.attemptOutcome p a ≠ .interrupt) :
    ∀ n p st, ((dlGo env minD maxD base R n p st).2).countP Event.isPacing = n := by
  intro n
  induction n with
  | zero =>
    intro p st
    simp [dlGo]
  | succ n ih =>
    intro p st
    rcases hl : retryLoop env base p 0 (R + 1) st with ⟨e, st1, tr1⟩
    have hzero : tr1.countP Event.isPacing = 0 := by
      have := retryLoop_countP_pacing env base p (R + 1) 0 st
      rw [hl] at this
      exact this
    cases e
    case ret =>
      have := retryLoop_no_ret env base p (hni p) (R + 1) 0 st
      rw [hl] at this
      exact absurd rfl this
    case ki =>
      have := retryLoop_no_ki env base p hs (R + 1) 0 st
      rw [hl] at this
      exact absurd rfl this
    case broke | exhausted =>
      rcases hgo : dlGo env minD maxD base R n (p + 1)
          { st1 with k := st1.k + 2, s := st1.s + 1 } with ⟨r2, tr2⟩
      have ihh := ih (p + 1) { st1 with k := st1.k + 2, s := st1.s + 1 }
      rw [hgo] at ihh
      simp only [dlGo, hl, hs, if_true, hgo]
      simp only [List.countP_append, List.countP_cons, hzero]
      simp [Event.isPacing, ihh]

/-- C6 engine: if every sleep completes, the run always terminates by a
normal `return`, with a count bounded by the number of posts. -/
lemma dlGo_returns (env : DlEnv) (minD maxD base : ℚ) (R : Nat)
    (hs : ∀ s, env.sleepOk s = true) :
    ∀ n p st, ∃ t, st.total ≤ t ∧ t ≤ st.total + n ∧
      (dlGo env minD maxD base R n p st).1 = .returned t := by
  intro n
  induction n with
  | zero =>
    intro p st
    exact ⟨st.total, le_refl _, by omega, by simp [dlGo]⟩
  | succ n ih =>
    intro p st
    rcases hl : retryLoop env base p 0 (R + 1) st with ⟨e, st1, tr1⟩
    have htot := retryLoop_total_bounds env base p (R + 1) 0 st
    rw [hl] at htot
    simp only at htot
    cases e
    case ki =>
      have := retryLoop_no_ki env base p hs (R + 1) 0 st
      rw [hl] at this
      exact absurd rfl this
    case ret =>
      exact ⟨st1.total, htot.1, by omega, by simp [dlGo, hl]⟩
    case broke =>
      obtain ⟨t2, ht2a, ht2b, ht2c⟩ := ih (p + 1) { st1 with k := st1.k + 2, s := st1.s + 1 }
      refine ⟨t2, by simp at ht2a; omega, by simp at ht2b; omega, ?_⟩
      rcases hgo : dlGo env minD maxD base R n (p + 1)
          { st1 with k := st1.k + 2, s := st1.s + 1 } with ⟨r2, tr2⟩
      rw [hgo] at ht2c
      simp only [dlGo, hl, hs, if_true, hgo]
      exact ht2c
    case exhausted =>
      obtain ⟨t2, ht2a, ht2b, ht2c⟩ := ih (p + 1) { st1 with k := st1.k + 2, s := st1.s + 1 }
      refine ⟨t2, by simp at ht2a; omega, by simp at ht2b; omega, ?_⟩
      rcases hgo : dlGo env minD maxD base R n (p + 1)
          { st1 with k := st1.k + 2, s := st1.s + 1 } with ⟨r2, tr2⟩
      rw [hgo] at ht2c
      simp only [dlGo, hl, hs, if_true, hgo]
      exact ht2c

/-- Prefix lemma: if the first `m` posts from position `p` all succeed on
their first attempt and every sleep completes, the run performs, for each
of them, exactly one download attempt and one pacing sleep, then continues
as a run over the remaining posts with the counter advanced by `m`. -/
lemma dlGo_firstTry (env : DlEnv) (minD maxD base : ℚ) (R : Nat)
    (hs : ∀ s, env.sleepOk s = true) :
    ∀ m n p t k s, m ≤ n →
      (∀ i, i < m → env.attemptOutcome (p + i) 0 = .success) →
      ∃ tr1,
        dlGo env minD maxD base R n p ⟨t, k, s⟩ =
          ((dlGo env minD maxD base R (n - m) (p + m) ⟨t + m, k + 2 * m, s + m⟩).1,
           tr1 ++ (dlGo env minD maxD base R (n - m) (p + m) ⟨t + m, k + 2 * m, s + m⟩).2) ∧
        tr1.countP Event.isAttempt = m ∧
        (∀ q a o, Event.attemptEv q a o ∈ tr1 → q < p + m) := by
  intro m
  induction m with
  | zero =>
    intro n p t k s _hmn _hsucc
    refine ⟨[], ?_, by simp, by simp⟩
    simp
  | succ m ih =>
    intro n p t k s hmn hsucc
    obtain ⟨n', rfl⟩ : ∃ n', n = n' + 1 := ⟨n - 1, by omega⟩
    have h0 : env.attemptOutcome p 0 = .success := by
      have := hsucc 0 (by omega)
      simpa using this
    have htr : retryLoop env base p 0 (R + 1) ⟨t, k, s⟩ =
        (.broke, ⟨t + 1, k, s⟩, [Event.attemptEv p 0 .success]) := by
      simp [retryLoop, h0]
    have hsucc' : ∀ i, i < m → env.attemptOutcome (p + 1 + i) 0 = .success := by
      intro i hi
      have := hsucc (i + 1) (by omega)
      rwa [show p + (i + 1) = p + 1 + i by omega] at this
    obtain ⟨tr1, heq, hcount, hposts⟩ := ih n' (p + 1) (t + 1) (k + 2) (s + 1)
      (by omega) hsucc'
    refine ⟨Event.attemptEv p 0 .success ::
      Event.pacingEv p (uniform minD maxD (env.rand k) + uniform 0 (6/5) (env.rand (k + 1))) ::
      tr1, ?_, ?_, ?_⟩
    · rw [show n' + 1 - (m + 1) = n' - m by omega,
        show p + (m + 1) = p + 1 + m by omega,
        show t + (m + 1) = t + 1 + m by omega,
        show k + 2 * (m + 1) = k + 2 + 2 * m by omega,
        show s + (m + 1) = s + 1 + m by omega]
      simp only [dlGo, htr, hs, if_true, heq]
      simp
    · simp [Event.isAttempt, List.countP_cons, hcount]
    · intro q a o hmem
      rcases List.mem_cons.mp hmem with h1 | h1
      · obtain ⟨rfl, -, -⟩ : q = p ∧ a = 0 ∧ o = DlOutcome.success := by
          simpa [eq_comm] using h1
        omega
      · rcases List.mem_cons.mp h1 with h2 | h2
        · exact absurd h2 (by simp)
        · have := hposts q a o h2
          omega

/-- C2: with per-item retry count `R`, a post whose download fails on every
attempt with a non-interrupt failure is attempted exactly `R + 1` times,
the success counter is not incremented for it, the failure does not
propagate (the run still ends in a normal `return`), and the downloader
proceeds to the next post (every one of the `n` posts gets its `R + 1`
attempts). -/
theorem C2_retry_exhaustion :
    ∀ (env : DlEnv) (R n : Nat) (minD maxD base : ℚ),
      (∀ p a, env.attemptOutcome p a = .connErr ∨ env.attemptOutcome p a = .otherErr) →
      (∀ s, env.sleepOk s = true) →
      (download_posts_with_delays env n minD maxD R base).1 = DlResult.returned 0 ∧
      ∀ p, p < n →
        ((download_posts_with_delays env n minD maxD R base).2).countP
          (Event.isAttemptOf p) = R + 1 := by
  intro env R n minD maxD base hf hs
  have h := dlGo_allFail env minD maxD base R hf hs n 0 0 0 0
  unfold download_posts_with_delays
  refine ⟨h.1, ?_⟩
  intro p hp
  rw [h.2 p, if_pos (by omega)]

theorem C2_retry_exhaustion_witness :
    (download_posts_with_delays envC2w 2 4 9 1 2).1 = DlResult.returned 0 ∧
    ((download_posts_with_delays envC2w 2 4 9 1 2).2).countP (Event.isAttemptOf 0) = 1 + 1 := by
  have h := C2_retry_exhaustion envC2w 1 2 4 9 2 (fun _ _ => Or.inl rfl) (fun _ => rfl)
  exact ⟨h.1, h.2 0 (by omega)⟩

/-- C3: every backoff sleep before retry attempt `a` of some post has
`a ≥ 1` and a wait in `[base ^ a + 1/2, base ^ a + 2)`, given that the
uniform draws lie in `[0,1)`. -/
theorem C3_backoff_window :
    ∀ (env : DlEnv) (n R : Nat) (minD maxD base : ℚ) (q a : Nat) (w : ℚ),
      (∀ k, 0 ≤ env.rand k ∧ env.rand k < 1) →
      Event.backoffEv q a w ∈ (download_posts_with_delays env n minD maxD R base).2 →
      1 ≤ a ∧ base ^ a + 1/2 ≤ w ∧ w < base ^ a + 2 := by
  intro env n R minD maxD base q a w hr hmem
  exact dlGo_backoff_bounds env minD maxD base R hr n 0 ⟨0, 0, 0⟩ q a w hmem

theorem C3_backoff_window_witness :
    Event.backoffEv 0 1 (5/2) ∈ (download_posts_with_delays envC3w 1 4 9 0 2).2 ∧
    (1 ≤ 1 ∧ (2 : ℚ) ^ 1 + 1/2 ≤ 5/2 ∧ (5/2 : ℚ) < 2 ^ 1 + 2) := by
  have hmem : Event.backoffEv 0 1 (5/2) ∈ (download_posts_with_delays envC3w 1 4 9 0 2).2 := by
    have htr : (download_posts_with_delays envC3w 1 4 9 0 2).2 =
        [Event.attemptEv 0 0 .connErr, Event.backoffEv 0 1 (5/2), Event.pacingEv 0 4] := by
      simp [download_posts_with_delays, dlGo, retryLoop, uniform, envC3w]
      norm_num
    rw [htr]
    simp
  exact ⟨hmem, C3_backoff_window envC3w 1 0 4 9 2 0 1 (5/2)
    (fun _ => ⟨le_refl 0, by norm_num [envC3w]⟩) hmem⟩

/-- C4: (i) every pacing sleep lies in `[minD, maxD + 6/5)` when the draws
are in `[0,1)` and `minD ≤ maxD`; (ii) with no interrupt anywhere there is
exactly one pacing sleep per post; (iii) scenario: `min_delay = 4`,
`max_delay = 9`, 3 posts all succeeding on the first try give exactly 3
pacing sleeps, each in `[4, 51/5)`, and the returned count is 3. -/
theorem C4_pacing :
    (∀ (env : DlEnv) (n R : Nat) (minD maxD base : ℚ) (q : Nat) (d : ℚ),
       (∀ k, 0 ≤ env.rand k ∧ env.rand k < 1) → minD ≤ maxD →
       Event.pacingEv q d ∈ (download_posts_with_delays env n minD maxD R base).2 →
       minD ≤ d ∧ d < maxD + 6/5) ∧
    (∀ (env : DlEnv) (n R : Nat) (minD maxD base : ℚ),
       (∀ s, env.sleepOk s = true) →
       (∀ p a, env.attemptOutcome p a ≠ .interrupt) →
       ((download_posts_with_delays env n minD maxD R base).2).countP Event.isPacing = n) ∧
    (∀ (env : DlEnv) (R : Nat) (base : ℚ),
       (∀ k, 0 ≤ env.rand k ∧ env.rand k < 1) →
       (∀ s, env.sleepOk s = true) →
       (∀ p a, env.attemptOutcome p a = .success) →
       (download_posts_with_delays env 3 4 9 R base).1 = DlResult.returned 3 ∧
       ((download_posts_with_delays env 3 4 9 R base).2).countP Event.isPacing = 3 ∧
       (∀ q d, Event.pacingEv q d ∈ (download_posts_with_delays env 3 4 9 R base).2 →
         4 ≤ d ∧ d < 51/5)) := by
  refine ⟨?_, ?_, ?_⟩
  · intro env n R minD maxD base q d hr hmm hmem
    exact dlGo_pacing_bounds env minD maxD base R hr hmm n 0 ⟨0, 0, 0⟩ q d hmem
  · intro env n R minD maxD base hs hni
    exact dlGo_pacing_count env minD maxD base R hs hni n 0 ⟨0, 0, 0⟩
  · intro env R base hr hs hsucc
    have hni : ∀ p a, env.attemptOutcome p a ≠ .interrupt := by
      intro p a
      rw [hsucc p a]
      simp
    refine ⟨?_, ?_, ?_⟩
    · obtain ⟨tr1, heq, -, -⟩ := dlGo_firstTry env 4 9 base R hs 3 3 0 0 0 0
        (le_refl 3) (fun i _ => hsucc (0 + i) 0)
      unfold download_posts_with_delays
      rw [heq]
      simp [dlGo]
    · exact dlGo_pacing_count env 4 9 base R hs hni 3 0 ⟨0, 0, 0⟩
    · intro q d hmem
      have h := dlGo_pacing_bounds env 4 9 base R hr (by norm_num) 3 0 ⟨0, 0, 0⟩ q d hmem
      refine ⟨h.1, ?_⟩
      have := h.2
      linarith

theorem C4_pacing_witness :
    (4 : ℚ) ≤ 9 ∧
    (download_posts_with_delays envC4w 3 4 9 3 2).1 = DlResult.returned 3 ∧
    ((download_posts_with_delays envC4w 3 4 9 3 2).2).countP Event.isPacing = 3 := by
  have h := C4_pacing.2.2 envC4w 3 2 (fun _ => ⟨le_refl 0, by norm_num [envC4w]⟩)
    (fun _ => rfl) (fun _ _ => rfl)
  exact ⟨by norm_num, h.1, h.2.1⟩

/-- C5 as stated is refuted by the source: a `KeyboardInterrupt` during a
pacing (or backoff) `time.sleep` is not caught inside
`download_posts_with_delays` (only the interrupt raised by
`loader.download_post` inside the `try` block is), so the function does not
return the current success count there — the interrupt propagates.  In
`envC5ce` the single post has already been downloaded (success count 1)
when the interrupt hits the pacing sleep, yet the run does not return 1. -/
theorem C5_counterexample :
    (download_posts_with_delays envC5ce 1 4 9 3 2).1 = DlResult.raisedKI ∧
    (download_posts_with_delays envC5ce 1 4 9 3 2).1 ≠ DlResult.returned 1 := by
  have h : (download_posts_with_delays envC5ce 1 4 9 3 2).1 = DlResult.raisedKI := by decide
  refine ⟨h, ?_⟩
  rw [h]
  simp

/-- C5 (amended): an interrupt raised during a post download makes the
downloader return the current success count at once — the interrupted post
is not retried, not counted, and no further post is attempted.  An
interrupt raised during a backoff or pacing sleep also aborts the
downloader at once with no retry and no further attempt, but by propagating
the `KeyboardInterrupt` out of the function (caught by `main` for a
graceful exit) rather than by returning the count. -/
theorem C5_interrupt_amended :
    (∀ (env : DlEnv) (m n R : Nat) (minD maxD base : ℚ),
       (∀ s, env.sleepOk s = true) → m < n →
       (∀ i, i < m → env.attemptOutcome i 0 = .success) →
       env.attemptOutcome m 0 = .interrupt →
       (download_posts_with_delays env n minD maxD R base).1 = DlResult.returned m ∧
       ((download_posts_with_delays env n minD maxD R base).2).countP Event.isAttempt
         = m + 1 ∧
       (∀ q a o, Event.attemptEv q a o ∈ (download_posts_with_delays env n minD maxD R base).2
         → q ≤ m)) ∧
    (∀ (env : DlEnv) (n R : Nat) (minD maxD base : ℚ),
       0 < n → env.attemptOutcome 0 0 = .connErr → env.sleepOk 0 = false →
       (download_posts_with_delays env n minD maxD R base).1 = DlResult.raisedKI) ∧
    (∀ (env : DlEnv) (n R : Nat) (minD maxD base : ℚ),
       0 < n → env.attemptOutcome 0 0 = .success → env.sleepOk 0 = false →
       (download_posts_with_delays env n minD maxD R base).1 = DlResult.raisedKI) := by
  refine ⟨?_, ?_, ?_⟩
  · intro env m n R minD maxD base hs hmn hsucc hint
    obtain ⟨tr1, heq, hcount, hposts⟩ := dlGo_firstTry env minD maxD base R hs m n 0 0 0 0
      (by omega) (by intro i hi; simpa using hsucc i hi)
    simp only [Nat.zero_add] at heq
    obtain ⟨j, hj⟩ : ∃ j, n - m = j + 1 := ⟨n - m - 1, by omega⟩
    rw [hj] at heq
    have htr2 : retryLoop env base m 0 (R + 1) ⟨m, 2 * m, m⟩ =
        (.ret, ⟨m, 2 * m, m⟩, [Event.attemptEv m 0 .interrupt]) := by
      simp [retryLoop, hint]
    have hstep : dlGo env minD maxD base R (j + 1) m ⟨m, 2 * m, m⟩ =
        (.returned m, [Event.attemptEv m 0 .interrupt]) := by
      simp [dlGo, htr2]
    rw [hstep] at heq
    unfold download_posts_with_delays
    rw [heq]
    refine ⟨rfl, ?_, ?_⟩
    · simp [List.countP_append, List.countP_cons, hcount, Event.isAttempt]
    · intro q a o hmem
      simp only [List.mem_append, List.mem_cons, List.not_mem_nil] at hmem
      rcases hmem with h1 | h1
      · have := hposts q a o h1
        omega
      · rcases h1 with h2 | h2
        · obtain ⟨rfl, -, -⟩ : q = m ∧ a = 0 ∧ o = DlOutcome.interrupt := by
            simpa [eq_comm] using h2
          omega
        · exact absurd h2 (by simp)
  · intro env n R minD maxD base hn h00 hsl0
    obtain ⟨j, rfl⟩ : ∃ j, n = j + 1 := ⟨n - 1, by omega⟩
    have htr : retryLoop env base 0 0 (R + 1) ⟨0, 0, 0⟩ =
        (.ki, ⟨0, 1, 1⟩,
          [Event.attemptEv 0 0 .connErr,
           Event.backoffEv 0 1 (base ^ 1 + uniform (1/2) 2 (env.rand 0))]) := by
      simp [retryLoop, h00, hsl0]
    unfold download_posts_with_delays
    simp [dlGo, htr]
  · intro env n R minD maxD base hn h00 hsl0
    obtain ⟨j, rfl⟩ : ∃ j, n = j + 1 := ⟨n - 1, by omega⟩
    have htr : retryLoop env base 0 0 (R + 1) ⟨0, 0, 0⟩ =
        (.broke, ⟨1, 0, 0⟩, [Event.attemptEv 0 0 .success]) := by
      simp [retryLoop, h00]
    unfold download_posts_with_delays
    simp [dlGo, htr, hsl0]

theorem C5_interrupt_amended_witness :
    (download_posts_with_delays envC5w 2 4 9 3 2).1 = DlResult.returned 1 ∧
    ((download_posts_with_delays envC5w 2 4 9 3 2).2).countP Event.isAttempt = 1 + 1 := by
  have h := C5_interrupt_amended.1 envC5w 1 2 3 4 9 2 (fun _ => rfl) (by omega)
    (by
      intro i hi
      have hi0 : i = 0 := by omega
      subst hi0
      rfl)
    rfl
  exact ⟨h.1, h.2.1⟩

/-- C6: per-post download failures never propagate out of the downloader:
as long as no sleep is interrupted, the run ends in a normal `return`
whatever the outcomes of the download attempts are (each failing post is
retried and then silently skipped), with a count bounded by the number of
posts. -/
theorem C6_failures_contained :
    ∀ (env : DlEnv) (n R : Nat) (minD maxD base : ℚ),
      (∀ s, env.sleepOk s = true) →
      ((download_posts_with_delays env n minD maxD R base).1).isReturned = true ∧
      ((download_posts_with_delays env n minD maxD R base).1).count ≤ n := by
  intro env n R minD maxD base hs
  obtain ⟨t, ht1, ht2, ht3⟩ := dlGo_returns env minD maxD base R hs n 0 ⟨0, 0, 0⟩
  unfold download_posts_with_delays
  rw [ht3]
  refine ⟨rfl, ?_⟩
  simp only [DlResult.count]
  simpa using ht2

theorem C6_failures_contained_witness :
    ((download_posts_with_delays envC6w 1 4 9 0 2).1).isReturned = true ∧
    ((download_posts_with_delays envC6w 1 4 9 0 2).1).count ≤ 1 :=
  C6_failures_contained envC6w 1 0 4 9 2 (fun _ => rfl)

/-- C7: (i) a preferred identifier whose persisted session loads is
returned immediately, the only external call being the session load (in
particular no login call); (ii) if no session file exists for it, the
resolver behaves exactly like the interactive path taken with no preferred
identifier — it falls through without raising; (iii) if interactive login
is disallowed, it fails immediately with a `RuntimeError` after the load
attempt. -/
theorem C7_session_resolver :
    (∀ (env : LoginEnv) (u : String) (ai : Bool),
       env.loadSession u = .ok →
       login_with_session env (some u) ai = (.ok u, [.loadSessionCall u])) ∧
    (∀ (env : LoginEnv) (u : String),
       env.loadSession u = .fileNotFound →
       (login_with_session env (some u) true).1 = (login_with_session env none true).1 ∧
       (login_with_session env (some u) true).2 =
         .loadSessionCall u :: (login_with_session env none true).2) ∧
    (∀ (env : LoginEnv) (u : String),
       env.loadSession u = .fileNotFound →
       login_with_session env (some u) false =
         (.raisedRuntimeError "No session available and interactive login disabled.",
          [.loadSessionCall u])) := by
  refine ⟨?_, ?_, ?_⟩
  · intro env u ai h
    simp [login_with_session, h]
  · intro env u h
    simp [login_with_session, h]
  · intro env u h
    simp [login_with_session, h]

theorem C7_session_resolver_witness :
    login_with_session lenvC7w (some "bob") true =
      (.ok "bob", [.loadSessionCall "bob"]) ∧
    (login_with_session lenvC7w2 (some "bob") true).1 =
      (login_with_session lenvC7w2 none true).1 ∧
    login_with_session lenvC7w2 (some "bob") false =
      (.raisedRuntimeError "No session available and interactive login disabled.",
       [.loadSessionCall "bob"]) :=
  ⟨C7_session_resolver.1 lenvC7w "bob" true rfl,
   (C7_session_resolver.2.1 lenvC7w2 "bob" rfl).1,
   C7_session_resolver.2.2 lenvC7w2 "bob" rfl⟩

lemma downloadPhase_spec (env : MainEnv) :
    (downloadPhase env).1 = 0 ∧ MainEv.downloadStarted ∈ (downloadPhase env).2 := by
  rcases h : (download_posts_with_delays env.dlenv env.nPosts 4 9 3 2).1 with t | _ <;>
    simp [downloadPhase, h]

lemma resolvePhase_spec (env : MainEnv) :
    ((resolvePhase env).1 = 0 ∨ (resolvePhase env).1 = 1) ∧
    ((resolvePhase env).1 = 1 ↔
      (env.resolution.isFatal = true ∨
       (env.resolution = .resolved true ∧ env.testLogin = .invalid))) ∧
    (env.resolution = .notExists →
      ∃ pre suf, MainEv.msg (pre ++ pyStrip env.targetInput ++ suf) ∈ (resolvePhase env).2) ∧
    (env.resolution = .resolved true → env.testLogin = .invalid →
      MainEv.downloadStarted ∉ (resolvePhase env).2) ∧
    (env.resolution = .resolved true → env.testLogin = .raises →
      MainEv.downloadStarted ∈ (resolvePhase env).2) := by
  rcases hres : env.resolution with priv | _ | _ | e | e
  · rcases priv with _ | _
    · refine ⟨Or.inl (by simp [resolvePhase, hres, (downloadPhase_spec env).1]),
        ?_, by simp [hres], ?_, ?_⟩
      · simp [resolvePhase, hres, ProfileRes.isFatal, (downloadPhase_spec env).1]
      · intro hcontra
        simp at hcontra
      · intro hcontra
        simp at hcontra
    · rcases htl : env.testLogin with _ | _ | _
      · refine ⟨Or.inl ?_, ?_, by simp [hres], by simp [htl], by simp [htl]⟩
        · simp [resolvePhase, hres, htl, (downloadPhase_spec env).1]
        · simp [resolvePhase, hres, htl, ProfileRes.isFatal, (downloadPhase_spec env).1]
      · refine ⟨Or.inr ?_, ?_, by simp [hres], ?_, by simp [htl]⟩
        · simp [resolvePhase, hres, htl]
        · simp [resolvePhase, hres, htl, ProfileRes.isFatal]
        · intro _ _
          simp [resolvePhase, hres, htl]
      · refine ⟨Or.inl ?_, ?_, by simp [hres], by simp [htl], ?_⟩
        · simp [resolvePhase, hres, htl, (downloadPhase_spec env).1]
        · simp [resolvePhase, hres, htl, ProfileRes.isFatal, (downloadPhase_spec env).1]
        · intro _ _
          simp [resolvePhase, hres, htl]
          exact (downloadPhase_spec env).2
  · refine ⟨Or.inr (by simp [resolvePhase, hres]), ?_, ?_, by simp [hres], by simp [hres]⟩
    · simp [resolvePhase, hres, ProfileRes.isFatal]
    · intro _
      refine ⟨"❌ The profile \x27", "\x27 does not exist.", ?_⟩
      simp [resolvePhase, hres]
  · exact ⟨Or.inr (by simp [resolvePhase, hres]),
      by simp [resolvePhase, hres, ProfileRes.isFatal],
      by simp [hres], by simp [hres], by simp [hres]⟩
  · exact ⟨Or.inr (by simp [resolvePhase, hres]),
      by simp [resolvePhase, hres, ProfileRes.isFatal],
      by simp [hres], by simp [hres], by simp [hres]⟩
  · exact ⟨Or.inr (by simp [resolvePhase, hres]),
      by simp [resolvePhase, hres, ProfileRes.isFatal],
      by simp [hres], by simp [hres], by simp [hres]⟩

/-- C8: once `main` reaches the private-profile check (DNS preflight ok,
non-empty target, login phase resolved), a private profile together with an
invalid session exits with code 1 before the download phase is entered,
while a private profile whose validity check raises proceeds to the
download phase anyway (and `main` then exits 0). -/
theorem C8_private_check :
    ∀ (env : MainEnv) (u : String),
      env.dnsOk = true →
      pyStrip env.targetInput ≠ "" →
      (login_with_session env.lenv (sessionUserOf env) true).1 = .ok u →
      env.resolution = .resolved true →
      ((env.testLogin = .invalid →
         (mainModel env).1 = 1 ∧ MainEv.downloadStarted ∉ (mainModel env).2) ∧
       (env.testLogin = .raises →
         (mainModel env).1 = 0 ∧ MainEv.downloadStarted ∈ (mainModel env).2)) := by
  intro env u hdns ht hl hres
  have hmain : mainModel env = resolvePhase env := by
    simp [mainModel, hdns, ht, hl]
  rw [hmain]
  have R := resolvePhase_spec env
  constructor
  · intro hinv
    exact ⟨R.2.1.mpr (Or.inr ⟨hres, hinv⟩), R.2.2.2.1 hres hinv⟩
  · intro hrs
    refine ⟨?_, R.2.2.2.2 hres hrs⟩
    rcases R.1 with h0 | h1
    · exact h0
    · exfalso
      rcases R.2.1.mp h1 with hf | ⟨-, hinv⟩
      · rw [hres] at hf
        simp [ProfileRes.isFatal] at hf
      · rw [hrs] at hinv
        exact absurd hinv (by simp)

theorem C8_private_check_witness :
    ((mainModel menvC8a).1 = 1 ∧ MainEv.downloadStarted ∉ (mainModel menvC8a).2) ∧
    ((mainModel menvC8b).1 = 0 ∧ MainEv.downloadStarted ∈ (mainModel menvC8b).2) :=
  ⟨(C8_private_check menvC8a "alice" rfl (by decide) rfl rfl).1 rfl,
   (C8_private_check menvC8b "alice" rfl (by decide) rfl rfl).2 rfl⟩

/-- C9: `main` only exits with code 0 or 1; the exit code is 1 exactly when
one of the following holds — the DNS preflight fails; the stripped target
handle is empty; the login phase raises and the user does not answer "yes"
to the continue prompt; the run reaches profile resolution and it ends
not-exists / not-found / connection-error / unexpected-error; or the run
reaches the private-profile check with a private profile and an invalid
session.  In every other case — including a user interrupt or any download
failure during the download phase — the exit code is 0.  Moreover, in the
does-not-exist case the printed message contains the handle. -/
theorem C9_exit_codes :
    ∀ env : MainEnv,
      ((mainModel env).1 = 0 ∨ (mainModel env).1 = 1) ∧
      ((mainModel env).1 = 1 ↔
        (env.dnsOk = false ∨
         (env.dnsOk = true ∧ pyStrip env.targetInput = "") ∨
         (env.dnsOk = true ∧ pyStrip env.targetInput ≠ "" ∧
          ((login_with_session env.lenv (sessionUserOf env) true).1).isErr = true ∧
          pyLower (pyStrip env.proceedInput) ≠ "yes") ∨
         (env.dnsOk = true ∧ pyStrip env.targetInput ≠ "" ∧
          (((login_with_session env.lenv (sessionUserOf env) true).1).isErr = false ∨
           pyLower (pyStrip env.proceedInput) = "yes") ∧
          (env.resolution).isFatal = true) ∨
         (env.dnsOk = true ∧ pyStrip env.targetInput ≠ "" ∧
          (((login_with_session env.lenv (sessionUserOf env) true).1).isErr = false ∨
           pyLower (pyStrip env.proceedInput) = "yes") ∧
          env.resolution = .resolved true ∧ env.testLogin = .invalid))) ∧
      (env.dnsOk = true → pyStrip env.targetInput ≠ "" →
       (((login_with_session env.lenv (sessionUserOf env) true).1).isErr = false ∨
        pyLower (pyStrip env.proceedInput) = "yes") →
       env.resolution = .notExists →
       (mainModel env).1 = 1 ∧
       ∃ pre suf, MainEv.msg (pre ++ pyStrip env.targetInput ++ suf) ∈ (mainModel env).2) := by
  intro env
  rcases hdns : env.dnsOk with _ | _
  · have hmain : mainModel env =
        (1, [.msg ("❌ DNS/Network check failed: " ++ env.dnsErrMsg),
             .msg "Please check your internet connection / DNS (try 8.8.8.8 or 1.1.1.1). Exiting."]) := by
      simp [mainModel, hdns]
    refine ⟨Or.inr (by rw [hmain]), ?_, ?_⟩
    · rw [hmain]
      simp [hdns]
    · intro hd
      exact absurd hd (by simp)
  · by_cases ht : pyStrip env.targetInput = ""
    · have hmain : mainModel env = (1, [.msg "No username provided. Exiting."]) := by
        simp [mainModel, hdns, ht]
      refine ⟨Or.inr (by rw [hmain]), ?_, ?_⟩
      · rw [hmain]
        simp [hdns, ht]
      · intro _ ht2
        exact absurd ht ht2
    · rcases hl : (login_with_session env.lenv (sessionUserOf env) true).1 with u | e
      · have hmain : mainModel env = resolvePhase env := by
          simp [mainModel, hdns, ht, hl]
        have R := resolvePhase_spec env
        rw [hmain]
        refine ⟨R.1, ?_, ?_⟩
        · rw [R.2.1]
          simp [hdns, ht, hl, SessionResult.isErr]
        · intro _ _ _ hres
          refine ⟨R.2.1.mpr (Or.inl (by rw [hres]; rfl)), R.2.2.1 hres⟩
      · by_cases hy : pyLower (pyStrip env.proceedInput) = "yes"
        · have hmain : mainModel env =
              ((resolvePhase env).1,
               .msg ("❌ Login/session error: " ++ e) :: (resolvePhase env).2) := by
            simp [mainModel, hdns, ht, hl, hy]
          have R := resolvePhase_spec env
          have hfst : (mainModel env).1 = (resolvePhase env).1 := by rw [hmain]
          have hsnd : (mainModel env).2 =
              .msg ("❌ Login/session error: " ++ e) :: (resolvePhase env).2 := by rw [hmain]
          refine ⟨by rw [hfst]; exact R.1, ?_, ?_⟩
          · rw [hfst, R.2.1]
            simp [hdns, ht, hl, hy, SessionResult.isErr]
          · intro _ _ _ hres
            obtain ⟨pre, suf, hmem⟩ := R.2.2.1 hres
            refine ⟨by rw [hfst]; exact R.2.1.mpr (Or.inl (by rw [hres]; rfl)),
              pre, suf, ?_⟩
            rw [hsnd]
            exact List.mem_cons_of_mem _ hmem
        · have hmain : mainModel env =
              (1, [.msg ("❌ Login/session error: " ++ e)]) := by
            simp [mainModel, hdns, ht, hl, hy]
          refine ⟨Or.inr (by rw [hmain]), ?_, ?_⟩
          · rw [hmain]
            simp [hdns, ht, hl, hy, SessionResult.isErr]
          · intro _ _ hor _
            rcases hor with h1 | h1
            · simp [SessionResult.isErr] at h1
            · exact absurd h1 hy

theorem C9_exit_codes_witness :
    (mainModel menvC9w).1 = 1 ∧
    ∃ pre suf, MainEv.msg (pre ++ pyStrip menvC9w.targetInput ++ suf) ∈ (mainModel menvC9w).2 :=
  (C9_exit_codes menvC9w).2.2 rfl (by decide) (Or.inl rfl) rfl

end InstaPosts
